import Mathlib

/-!
# DataSync (`datasync.go`): shallow embedding and verification

This file embeds the sync engine of `datasync.go` — the `newer` time
comparator, the FTP and SMB backend operations, and the `main` walk loop —
as executable Lean definitions, and proves/refutes the specified properties.

Modelling conventions:
* `time.Time` values are `Int`; the zero `time.Time` is `0`
  (`IsZero` ↔ `= 0`, `local.After(remote)` ↔ `remote < local`).
* Go errors are `GoErr`; `errors.Is(err, os.ErrNotExist)` is `isNotExist`.
* I/O is given to each function as oracle results (one parameter per
  fallible call site, in source order), so the Lean definitions mirror
  exactly which results the Go code inspects and which it discards.
* `path/filepath` functions are modelled for clean relative inputs
  (no `..`, no duplicated or trailing separators, not rooted), which is
  the shape every path in the sync loop has.  The build target is
  Windows (`GOOS=windows` in the file header), where `filepath`'s
  separator is `'\\'` and `/` is also recognised as a separator; the
  flag `win : Bool` selects between Windows and Unix separator rules.
-/

/-- Go error values, as far as the sync engine distinguishes them:
`errors.Is(err, os.ErrNotExist)` is the only test the code performs. -/
inductive GoErr where
  | notExist : GoErr
  | other : String → GoErr
deriving DecidableEq, Repr

/-- `errors.Is(err, os.ErrNotExist)` (line 183). -/
def isNotExist : GoErr → Bool
  | .notExist => true
  | .other _ => false

/-- Line 51: `func newer(local, remote time.Time) bool
{ return remote.IsZero() || local.After(remote) }`. -/
def newer (lcl rmt : Int) : Bool :=
  rmt == 0 || decide (rmt < lcl)

/-! ## `path/filepath` model -/

/-- `os.IsPathSeparator`: on Windows both `/` and `\` separate; on Unix only `/`. -/
def isSep (win : Bool) (c : Char) : Bool :=
  c = '/' || (win && c = '\\')

/-- `filepath.ToSlash`: replace every native separator by `/`
(identity when the separator already is `/`). -/
def toSlash (win : Bool) (s : String) : String :=
  if win then ⟨s.data.map (fun c => if c = '\\' then '/' else c)⟩ else s

/-- `filepath.Clean` restricted to clean relative inputs: on Windows it
rewrites `/` to `\`; on Unix it is the identity. -/
def cleanFP (win : Bool) (s : String) : String :=
  if win then ⟨s.data.map (fun c => if c = '/' then '\\' else c)⟩ else s

/-- `filepath.Join(a, b)` for clean inputs: join with the native separator
(skipping an empty first element) and `Clean` the result. -/
def joinFP (win : Bool) (a b : String) : String :=
  cleanFP win (if a = "" then b else a ++ (if win then "\\" else "/") ++ b)

/-- `filepath.Dir` for clean relative inputs: drop the final path element
(splitting at the last separator), then `Clean`; `"."` when there is no
separator. -/
def dirFP (win : Bool) (s : String) : String :=
  let rev := s.data.reverse
  let rest := rev.dropWhile (fun c => !(isSep win c))
  let kept := (rest.dropWhile (fun c => isSep win c)).reverse
  if kept = [] then "." else cleanFP win ⟨kept⟩

/-- `filepath.Base` for clean relative inputs: the part after the last
separator. -/
def baseFP (win : Bool) (s : String) : String :=
  ⟨(s.data.reverse.takeWhile (fun c => !(isSep win c))).reverse⟩

/-! ## Backend operations -/

/-- Lines 66–77, `ftpTarget.mtime`: list the remote directory, scan for an
entry whose name equals `filepath.Base(rel)`.  The listing oracle is the
result of `t.c.List(remoteDir)`: either an error or the entries as
(name, time) pairs.  Returns the Go pair `(time.Time, error)`: the zero
time with an error when the listing fails or no name matches
(`os.ErrNotExist`), the entry's time otherwise. -/
def ftpMtime (win : Bool) (listRes : Except GoErr (List (String × Int)))
    (rel : String) : Int × Bool :=
  match listRes with
  | .error _ => (0, true)
  | .ok entries =>
    match entries.find? (fun e => e.1 = baseFP win rel) with
    | some e => (e.2, false)
    | none => (0, true)

/-- Lines 117–121, `smbTarget.mtime`: `os.Stat` the mapped path and return
its `ModTime`; the zero time with an error when the stat fails. -/
def smbMtime (statRes : Option Int) : Int × Bool :=
  match statRes with
  | none => (0, true)
  | some t => (t, false)

/-- `strings.Split(s, sep)` for a one-character separator, on the
character list. -/
def splitChar (c : Char) : List Char → List (List Char)
  | [] => [[]]
  | x :: xs =>
    if x = c then [] :: splitChar c xs
    else
      match splitChar c xs with
      | [] => [[x]]
      | h :: t => (x :: h) :: t

/-- `strings.Split(s, "/")` (line 84). -/
def splitSlash (s : String) : List String :=
  (splitChar '/' s.data).map (fun l => ⟨l⟩)

/-- Lines 80–90 of `ftpTarget.upload`: the successive arguments handed to
`t.c.MakeDir` while creating the directory chain of
`remote := ToSlash(Join(prefix, rel))` — `p` starts empty and grows by
`p = filepath.Join(p, d)` for each `d` in `strings.Split(Dir(remote), "/")`.
(`pfx` is the target's `prefix` field.) -/
def ftpDirChain (win : Bool) (pfx rel : String) : List String :=
  let remote := toSlash win (joinFP win pfx rel)
  let dir := dirFP win remote
  if dir ≠ "" && dir ≠ "." then
    (splitSlash dir |>.foldl
      (fun (acc : List String × String) d =>
        let p := joinFP win acc.2 d
        (acc.1 ++ [p], p)) ([], "")).1
  else []

/-- Lines 79–95, `ftpTarget.upload` outcome: every `t.c.MakeDir` result is
discarded (the source ignores the return value), then `os.Open(local)`
and `t.c.Stor(remote, src)` are the only inspected results. -/
def ftpUpload (mkdirRes : String → Option GoErr)
    (openRes storRes : Option GoErr) : Option GoErr :=
  match openRes with
  | some e => some e
  | none => storRes

/-- A remote filesystem visible through the SMB mount: content of each path. -/
def FS : Type := String → Option String

/-- Point update of an `FS`. -/
def fsSet (fs : FS) (p : String) (v : Option String) : FS :=
  fun q => if q = p then v else fs q

/-- Lines 122–137, `smbTarget.upload`: `os.MkdirAll`'s result is discarded;
`os.Open(local)`, `os.Create(dst+".tmp")`, `io.Copy`, `os.Rename(tmp, dst)`
are the inspected call results (the `out.Close()` results are discarded).
`src` is the local file's content; on a failed copy the temporary file is
left holding the prefix `written` that was transferred before the error.
Returns the filesystem after the call together with the Go error. -/
def smbUpload (fs : FS) (dst src : String)
    (mkdirRes openRes createRes copyRes renameRes : Option GoErr)
    (written : String) : FS × Option GoErr :=
  match openRes with
  | some e => (fs, some e)
  | none =>
    let tmp := dst ++ ".tmp"
    match createRes with
    | some e => (fs, some e)
    | none =>
      let fs1 := fsSet fs tmp (some "")
      match copyRes with
      | some e => (fsSet fs1 tmp (some written), some e)
      | none =>
        let fs2 := fsSet fs1 tmp (some src)
        match renameRes with
        | some e => (fs2, some e)
        | none => (fsSet (fsSet fs2 tmp none) dst (some src), none)

/-! ## The sync driver (`main`, lines 164–186) -/

/-- One callback invocation of `filepath.WalkDir` (line 167): a regular
file (with the `filepath.Rel` result and the `os.Stat` result — `none`
models a failed stat, whose error line 172 discards), a directory entry,
or an entry delivered with a non-nil `walkErr`. -/
inductive WalkEntry where
  | file : String → Option Int → WalkEntry
  | dir : WalkEntry
  | errEntry : GoErr → WalkEntry
deriving DecidableEq, Repr

/-- Observable events of a run: a backend timestamp lookup, a line printed
to stdout, and a backend upload call. -/
inductive Ev where
  | lookup : String → Ev
  | stdout : String → Ev
  | uploadCall : String → Ev
deriving DecidableEq, Repr

/-- The events produced for one regular file: one `getMTime` call, then —
when `newer` says so — the `fmt.Printf("↑ %s\n", rel)` line followed by
the `putFile` call (lines 173–179). -/
def fileEvs (rel : String) (doUp : Bool) : List Ev :=
  .lookup rel :: (if doUp then [.stdout ("↑ " ++ rel), .uploadCall rel] else [])

/-- Lines 167–182, the `WalkDir` callback folded over the walk's entries.
`mt rel` is the Go pair returned by `getMTime(rel)` (value, errored?;
line 173 discards the error), `up rel` the result of `putFile(path, rel)`.
Result: `none` when the run panics (line 175 dereferences the `nil`
`FileInfo` of a failed stat), otherwise the event trace and the error
`filepath.WalkDir` returns (`some e` aborts the walk at that entry). -/
def walkRun (win : Bool) (mt : String → Int × Bool) (up : String → Option GoErr) :
    List WalkEntry → Option (List Ev × Option GoErr)
  | [] => some ([], none)
  | .dir :: rest => walkRun win mt up rest
  | .errEntry e :: _ => some ([], some e)
  | .file relRaw st :: rest =>
    match st with
    | none => none
    | some lt =>
      let rel := toSlash win relRaw
      if newer lt (mt rel).1 then
        match up rel with
        | some e => some (fileEvs rel true, some e)
        | none =>
          match walkRun win mt up rest with
          | none => none
          | some (evs, r) => some (fileEvs rel true ++ evs, r)
      else
        match walkRun win mt up rest with
        | none => none
        | some (evs, r) => some (fileEvs rel false ++ evs, r)

/-- Line 186: `fmt.Println("✓ Sync complete")`. -/
def doneLine : String := "✓ Sync complete"

/-- Outcome of a run from the point the session is established (line 164,
`defer closeFn()`): the trace of events, the process exit code, and
whether the deferred `closeFn()` ran before the process terminated. -/
structure MainRes where
  events : List Ev
  exit : Nat
  closed : Bool
deriving DecidableEq, Repr

/-- Lines 164–186 of `main` after a successful connect: run the walk; a
returned error satisfying `errors.Is(err, os.ErrNotExist)` is tolerated;
any other error hits `log.Fatal`, which prints to stderr and calls
`os.Exit(1)` — the deferred `closeFn()` does NOT run on that path.  On
normal return the completion line is printed and the defer runs. -/
def mainRun (win : Bool) (mt : String → Int × Bool) (up : String → Option GoErr)
    (files : List WalkEntry) : Option MainRes :=
  match walkRun win mt up files with
  | none => none
  | some (evs, some e) =>
    if isNotExist e then some ⟨evs ++ [.stdout doneLine], 0, true⟩
    else some ⟨evs, 1, false⟩
  | some (evs, none) => some ⟨evs ++ [.stdout doneLine], 0, true⟩

/-! ## C3: the time comparator -/

/-- **C3**: for all timestamp pairs, `newer local remote` is true iff
`remote` is the zero/Absent value or `local` is strictly after `remote`;
in particular equal non-absent timestamps yield `false`. -/
theorem newer_iff_absent_or_after :
    (∀ lcl rmt : Int,
      newer lcl rmt = true ↔ (rmt = 0 ∨ rmt < lcl)) ∧
    (∀ t : Int, t ≠ 0 → newer t t = false) := by
  constructor
  · intro l r
    simp [newer]
  · intro t ht
    simp [newer, ht]

/-- Witness for C3 at concrete inputs. -/
theorem newer_iff_absent_or_after_check :
    (newer 5 0 = true ↔ ((0 : Int) = 0 ∨ (0 : Int) < 5)) ∧
    ((7 : Int) ≠ 0 ∧ newer 7 7 = false) :=
  ⟨newer_iff_absent_or_after.1 5 0,
   by decide, newer_iff_absent_or_after.2 7 (by decide)⟩

/-! ## Helper lemmas -/

/-- `walkRun` is a fold: running a concatenation of walk entries first runs
the front, and continues with the back only when the front neither panicked
nor returned an error. -/
theorem walkRun_append (win : Bool) (mt : String → Int × Bool)
    (up : String → Option GoErr) (xs ys : List WalkEntry) :
    walkRun win mt up (xs ++ ys) =
      match walkRun win mt up xs with
      | none => none
      | some (evs, some e) => some (evs, some e)
      | some (evs, none) =>
        match walkRun win mt up ys with
        | none => none
        | some (evs2, r) => some (evs ++ evs2, r) := by
  induction xs with
  | nil =>
    simp only [List.nil_append, walkRun]
    cases h : walkRun win mt up ys with
    | none => rfl
    | some p => cases p with | mk evs r => simp
  | cons a rest ih =>
    cases a with
    | dir => simpa [walkRun] using ih
    | errEntry e => simp [walkRun]
    | file relRaw st =>
      cases st with
      | none => simp [walkRun]
      | some lt =>
        simp only [List.cons_append, walkRun]
        by_cases hn : newer lt (mt (toSlash win relRaw)).1 = true
        · simp only [hn, if_pos]
          cases hu : up (toSlash win relRaw) with
          | some e => rfl
          | none =>
            rw [List.append_eq, ih]
            cases hx : walkRun win mt up rest with
            | none => rfl
            | some p =>
              cases p with
              | mk evs r =>
                cases r with
                | none =>
                  cases hy : walkRun win mt up ys with
                  | none => rfl
                  | some q => cases q with | mk evs2 r2 => simp
                | some e => rfl
        · simp only [hn, if_neg, Bool.false_eq_true, not_false_eq_true]
          rw [List.append_eq, ih]
          cases hx : walkRun win mt up rest with
          | none => rfl
          | some p =>
            cases p with
            | mk evs r =>
              cases r with
              | none =>
                cases hy : walkRun win mt up ys with
                | none => rfl
                | some q => cases q with | mk evs2 r2 => simp
              | some e => rfl

/-- The walk's behaviour depends on the timestamp oracle only through the
time value: the error component is dead (line 173 discards it). -/
theorem walkRun_mt_fst (win : Bool) (mt1 mt2 : String → Int × Bool)
    (up : String → Option GoErr) (h : ∀ r, (mt1 r).1 = (mt2 r).1) :
    ∀ files, walkRun win mt1 up files = walkRun win mt2 up files := by
  intro files
  induction files with
  | nil => rfl
  | cons a rest ih =>
    cases a with
    | dir => simpa [walkRun] using ih
    | errEntry e => simp [walkRun]
    | file relRaw st =>
      cases st with
      | none => simp [walkRun]
      | some lt =>
        simp only [walkRun, h (toSlash win relRaw), ih]

/-- `toSlash` on a backslash-separator host leaves no backslash behind. -/
theorem toSlash_no_backslash (s : String) : '\\' ∉ (toSlash true s).data := by
  intro h
  simp only [toSlash, if_pos] at h
  rcases List.mem_map.1 h with ⟨x, -, hx⟩
  by_cases hxx : x = '\\'
  · simp [hxx] at hx
  · simp [hxx] at hx

/-- `newer` rejects a file whose present remote time is at least the local
time. -/
theorem newer_false_of_le {lt rv : Int} (h0 : rv ≠ 0) (hle : lt ≤ rv) :
    newer lt rv = false := by
  simp [newer, h0, not_lt.2 hle]

/-- The sibling temporary path is distinct from the destination. -/
theorem tmp_ne_dst (dst : String) : dst ++ ".tmp" ≠ dst := by
  intro h
  have := congrArg String.length h
  rw [String.length_append] at this
  have h4 : (".tmp" : String).length = 4 := rfl
  omega

/-! ## C4: timestamp-lookup failures collapse to Absent -/

/-- **C4**: whenever a backend's timestamp lookup fails — FTP listing
error, no matching listing entry, SMB stat failure — the returned time
value is the zero/Absent value; and the driver ignores the error
component entirely, so the run proceeds exactly as if the lookup had
returned Absent without an error: no abort, nothing surfaced. -/
theorem mtime_failure_collapses_to_absent :
    (∀ win listRes rel, (ftpMtime win listRes rel).2 = true →
      (ftpMtime win listRes rel).1 = 0) ∧
    (∀ statRes, (smbMtime statRes).2 = true → (smbMtime statRes).1 = 0) ∧
    (∀ win mt up files, walkRun win mt up files =
      walkRun win (fun r => ((mt r).1, false)) up files) := by
  refine ⟨?_, ?_, ?_⟩
  · intro win listRes rel h
    cases listRes with
    | error e => rfl
    | ok entries =>
      simp only [ftpMtime] at h ⊢
      cases hf : entries.find? (fun e => e.1 = baseFP win rel) with
      | none => rfl
      | some e => simp [hf] at h
  · intro statRes h
    cases statRes with
    | none => rfl
    | some t => simp [smbMtime] at h
  · intro win mt up files
    exact walkRun_mt_fst win mt (fun r => ((mt r).1, false)) up (fun _ => rfl) files

/-- Witness for C4: a failed FTP listing, a failed stat, and a driver run
whose lookup errors are invisible in the outcome. -/
theorem mtime_failure_collapses_to_absent_check :
    ((ftpMtime false (.error (GoErr.other "425 timeout")) "a.txt").2 = true ∧
      (ftpMtime false (.error (GoErr.other "425 timeout")) "a.txt").1 = 0) ∧
    ((smbMtime none).2 = true ∧ (smbMtime none).1 = 0) ∧
    walkRun false (fun _ => (0, true)) (fun _ => none) [.file "a.txt" (some 5)] =
      walkRun false (fun _ => (0, false)) (fun _ => none) [.file "a.txt" (some 5)] :=
  ⟨⟨rfl, mtime_failure_collapses_to_absent.1 false
      (.error (GoErr.other "425 timeout")) "a.txt" rfl⟩,
   ⟨rfl, mtime_failure_collapses_to_absent.2.1 none rfl⟩,
   mtime_failure_collapses_to_absent.2.2 false (fun _ => (0, true))
     (fun _ => none) [.file "a.txt" (some 5)]⟩

/-! ## C5: directory-creation failures -/

/-- **C5 counterexample**: a directory-chain creation failure other than
"already exists" (here: permission denied at every `MakeDir` of the chain)
does NOT result in an upload error — `ftpTarget.upload` discards the
`MakeDir` results, so with the subsequent `os.Open` and `Stor` succeeding
the upload reports success, nothing is surfaced, and the run completes
with exit code 0. -/
theorem mkdir_failure_not_surfaced_cex :
    ftpUpload (fun _ => some (GoErr.other "550 permission denied")) none none = none ∧
    (mainRun false (fun _ => (0, false))
        (fun _ => ftpUpload (fun _ => some (GoErr.other "550 permission denied")) none none)
        [.file "sub/c.txt" (some 5)]).map (fun m => m.exit) = some 0 := by
  constructor
  · rfl
  · rfl

/-- **C5 amended**: both backends discard the result of remote
directory-chain creation (`t.c.MakeDir` / `os.MkdirAll`), so no creation
failure — tolerable or not — by itself yields an upload error; the upload
outcome is determined solely by the subsequent open/transfer/rename
results. -/
theorem upload_outcome_independent_of_mkdir :
    (∀ m1 m2 openRes storRes, ftpUpload m1 openRes storRes = ftpUpload m2 openRes storRes) ∧
    (∀ fs dst src m1 m2 openRes createRes copyRes renameRes written,
      smbUpload fs dst src m1 openRes createRes copyRes renameRes written =
        smbUpload fs dst src m2 openRes createRes copyRes renameRes written) :=
  ⟨fun _ _ _ _ => rfl, fun _ _ _ _ _ _ _ _ _ _ => rfl⟩

/-! ## C7: crash-safe SMB writes -/

/-- **C7**: whatever combination of call results occurs, a failing
`smbTarget.upload` leaves the destination path exactly as it was (content
writing touches only the sibling `dst+".tmp"` path), and a successful one
leaves the full source content at the destination, placed there by the
final rename. -/
theorem smb_upload_no_partial_dst :
    ∀ fs dst src mkdirRes openRes createRes copyRes renameRes written,
      (∀ e, (smbUpload fs dst src mkdirRes openRes createRes copyRes renameRes written).2 = some e →
        (smbUpload fs dst src mkdirRes openRes createRes copyRes renameRes written).1 dst = fs dst) ∧
      ((smbUpload fs dst src mkdirRes openRes createRes copyRes renameRes written).2 = none →
        (smbUpload fs dst src mkdirRes openRes createRes copyRes renameRes written).1 dst = some src) := by
  intro fs dst src mkdirRes openRes createRes copyRes renameRes written
  have hne : dst ≠ dst ++ ".tmp" := fun h => tmp_ne_dst dst h.symm
  cases openRes with
  | some e => exact ⟨fun _ _ => rfl, fun h => by simp [smbUpload] at h⟩
  | none =>
    cases createRes with
    | some e => exact ⟨fun _ _ => rfl, fun h => by simp [smbUpload] at h⟩
    | none =>
      cases copyRes with
      | some e =>
        refine ⟨fun e' _ => ?_, fun h => by simp [smbUpload] at h⟩
        simp [smbUpload, fsSet, hne]
      | none =>
        cases renameRes with
        | some e =>
          refine ⟨fun e' _ => ?_, fun h => by simp [smbUpload] at h⟩
          simp [smbUpload, fsSet, hne]
        | none =>
          refine ⟨fun e' h => ?_, fun _ => ?_⟩
          · simp [smbUpload] at h
          · simp [smbUpload, fsSet]

/-- Witness for C7: a copy that fails half-way leaves the (previously
absent) destination absent, with only the temporary file written. -/
theorem smb_upload_no_partial_dst_check :
    (smbUpload (fun _ => none) "d.txt" "hello" none none none
      (some (GoErr.other "short write")) none "hel").1 "d.txt" = none :=
  (smb_upload_no_partial_dst (fun _ => none) "d.txt" "hello" none none none
    (some (GoErr.other "short write")) none "hel").1 (GoErr.other "short write") rfl

/-! ## C6: forward-slash normalization -/

/-- Every relative path occurring in a lookup or upload event of a run
comes from the driver's `rel = filepath.ToSlash(rel)` normalization of
some walked file. -/
theorem walkRun_rel_events (win : Bool) (mt : String → Int × Bool)
    (up : String → Option GoErr) :
    ∀ files evs res, walkRun win mt up files = some (evs, res) →
      ∀ r, Ev.lookup r ∈ evs ∨ Ev.uploadCall r ∈ evs →
        ∃ relRaw st, WalkEntry.file relRaw st ∈ files ∧ r = toSlash win relRaw := by
  intro files
  induction files with
  | nil =>
    intro evs res h r hr
    simp only [walkRun, Option.some.injEq, Prod.mk.injEq] at h
    obtain ⟨rfl, rfl⟩ := h
    simp at hr
  | cons a rest ih =>
    intro evs res h r hr
    cases a with
    | dir =>
      simp only [walkRun] at h
      obtain ⟨relRaw, st, hmem, hrel⟩ := ih evs res h r hr
      exact ⟨relRaw, st, List.mem_cons_of_mem _ hmem, hrel⟩
    | errEntry e =>
      simp only [walkRun, Option.some.injEq, Prod.mk.injEq] at h
      obtain ⟨rfl, rfl⟩ := h
      simp at hr
    | file relRaw st =>
      cases st with
      | none => simp [walkRun] at h
      | some lt =>
        simp only [walkRun] at h
        by_cases hn : newer lt (mt (toSlash win relRaw)).1 = true
        · rw [if_pos hn] at h
          cases hu : up (toSlash win relRaw) with
          | some e =>
            rw [hu] at h
            simp only [Option.some.injEq, Prod.mk.injEq] at h
            obtain ⟨rfl, rfl⟩ := h
            have hr' : r = toSlash win relRaw := by
              rcases hr with hr | hr <;> simpa [fileEvs] using hr
            exact ⟨relRaw, some lt, List.mem_cons_self _ _, hr'⟩
          | none =>
            rw [hu] at h
            cases hw : walkRun win mt up rest with
            | none => rw [hw] at h; simp at h
            | some p =>
              cases p with
              | mk evs' r' =>
                rw [hw] at h
                simp only [Option.some.injEq, Prod.mk.injEq] at h
                obtain ⟨rfl, rfl⟩ := h
                have hsplit : Ev.lookup r ∈ fileEvs (toSlash win relRaw) true ∨
                    Ev.uploadCall r ∈ fileEvs (toSlash win relRaw) true ∨
                    (Ev.lookup r ∈ evs' ∨ Ev.uploadCall r ∈ evs') := by
                  rcases hr with hr | hr <;> rcases List.mem_append.1 hr with hr | hr
                  · exact Or.inl hr
                  · exact Or.inr (Or.inr (Or.inl hr))
                  · exact Or.inr (Or.inl hr)
                  · exact Or.inr (Or.inr (Or.inr hr))
                rcases hsplit with hr' | hr' | hr'
                · have : r = toSlash win relRaw := by simpa [fileEvs] using hr'
                  exact ⟨relRaw, some lt, List.mem_cons_self _ _, this⟩
                · have : r = toSlash win relRaw := by simpa [fileEvs] using hr'
                  exact ⟨relRaw, some lt, List.mem_cons_self _ _, this⟩
                · obtain ⟨relRaw', st', hmem, hrel⟩ := ih evs' r' hw r hr'
                  exact ⟨relRaw', st', List.mem_cons_of_mem _ hmem, hrel⟩
        · rw [if_neg hn] at h
          cases hw : walkRun win mt up rest with
          | none => rw [hw] at h; simp at h
          | some p =>
            cases p with
            | mk evs' r' =>
              rw [hw] at h
              simp only [Option.some.injEq, Prod.mk.injEq] at h
              obtain ⟨rfl, rfl⟩ := h
              have hsplit : Ev.lookup r ∈ fileEvs (toSlash win relRaw) false ∨
                  Ev.uploadCall r ∈ fileEvs (toSlash win relRaw) false ∨
                  (Ev.lookup r ∈ evs' ∨ Ev.uploadCall r ∈ evs') := by
                rcases hr with hr | hr <;> rcases List.mem_append.1 hr with hr | hr
                · exact Or.inl hr
                · exact Or.inr (Or.inr (Or.inl hr))
                · exact Or.inr (Or.inl hr)
                · exact Or.inr (Or.inr (Or.inr hr))
              rcases hsplit with hr' | hr' | hr'
              · have : r = toSlash win relRaw := by simpa [fileEvs] using hr'
                exact ⟨relRaw, some lt, List.mem_cons_self _ _, this⟩
              · exact absurd hr' (by simp [fileEvs])
              · obtain ⟨relRaw', st', hmem, hrel⟩ := ih evs' r' hw r hr'
                exact ⟨relRaw', st', List.mem_cons_of_mem _ hmem, hrel⟩

/-- **C6 counterexample**: on the Windows build target the FTP
directory-chain creation hands `MakeDir` a path built by `filepath.Join`,
which uses the native backslash separator: for the file `a/b/c.txt` the
single `MakeDir` argument is `a\b` — not forward-slash-normalized (and
the chain is not even split into its two segments, because
`strings.Split(dir, "/")` finds no `/` in the cleaned `a\b`). -/
theorem ftp_dirchain_backslash_cex :
    ftpDirChain true "" "a/b/c.txt" = ["a\\b"] ∧ '\\' ∈ ("a\\b" : String).data := by
  exact ⟨by decide, by decide⟩

/-- **C6 amended**: the relative paths the Sync Driver hands to the
backend operations `getMTime` and `putFile` are always forward-slash
normalized (no backslash survives `filepath.ToSlash`, whatever the raw
`filepath.Rel` result contained); the FTP backend's internal
directory-chain creation, however, passes native-separator paths to
`MakeDir` on a backslash host. -/
theorem driver_backend_paths_slash_normalized :
    ∀ mt up files evs res, walkRun true mt up files = some (evs, res) →
      ∀ r, Ev.lookup r ∈ evs ∨ Ev.uploadCall r ∈ evs → '\\' ∉ r.data := by
  intro mt up files evs res h r hr
  obtain ⟨relRaw, st, -, rfl⟩ := walkRun_rel_events true mt up files evs res h r hr
  exact toSlash_no_backslash relRaw

/-- Witness for C6: a backslash-separated raw relative path reaches the
backend as `sub/c.txt`, which indeed contains no backslash. -/
theorem driver_backend_paths_slash_normalized_check :
    '\\' ∉ ("sub/c.txt" : String).data :=
  driver_backend_paths_slash_normalized (fun _ => (0, false)) (fun _ => none)
    [.file "sub\\c.txt" (some 5)] (fileEvs "sub/c.txt" true) none (by decide)
    "sub/c.txt" (Or.inl (by decide))

/-! ## C2: upload errors -/

/-- **C2 counterexample**: an upload error that satisfies
`errors.Is(err, os.ErrNotExist)` is NOT treated as a run failure: the walk
stops (no `b.txt` event appears), but `main` tolerates the error at line
183, prints the completion line and exits 0 with the session closed — so
not every upload error yields a non-zero failing run. -/
theorem upload_notexist_tolerated_cex :
    mainRun false (fun _ => (0, false))
      (fun r => if r = "a.txt" then some GoErr.notExist else none)
      [.file "a.txt" (some 5), .file "b.txt" (some 5)] =
      some ⟨[.lookup "a.txt", .stdout "↑ a.txt", .uploadCall "a.txt",
             .stdout doneLine], 0, true⟩ := by
  decide

/-- **C2 amended**: when an upload fails, the walk stops at that file —
the outcome is independent of every later entry — and the run exits with
a non-zero status unless the upload error is the not-exist sentinel of
`errors.Is(err, os.ErrNotExist)`, which line 183 tolerates: then the run
ends as a success (exit 0, completion line printed). -/
theorem upload_error_stops_walk (win : Bool) (mt : String → Int × Bool)
    (up : String → Option GoErr) (pre rest : List WalkEntry)
    (relRaw : String) (lt : Int) (e : GoErr) (evs : List Ev)
    (hpre : walkRun win mt up pre = some (evs, none))
    (hnew : newer lt (mt (toSlash win relRaw)).1 = true)
    (hup : up (toSlash win relRaw) = some e) :
    mainRun win mt up (pre ++ WalkEntry.file relRaw (some lt) :: rest) =
      (if isNotExist e
        then some ⟨evs ++ fileEvs (toSlash win relRaw) true ++ [Ev.stdout doneLine], 0, true⟩
        else some ⟨evs ++ fileEvs (toSlash win relRaw) true, 1, false⟩) := by
  have hw : walkRun win mt up (WalkEntry.file relRaw (some lt) :: rest) =
      some (fileEvs (toSlash win relRaw) true, some e) := by
    simp only [walkRun, hnew, if_pos, hup]
  have hall : walkRun win mt up (pre ++ WalkEntry.file relRaw (some lt) :: rest) =
      some (evs ++ fileEvs (toSlash win relRaw) true, some e) := by
    rw [walkRun_append, hpre, hw]
  rw [mainRun, hall]

/-- Witness for C2 at a concrete run: the second file is never visited and
the non-not-exist upload error makes the run fail with exit 1 (and, per
`log.Fatal`, without the completion line). -/
theorem upload_error_stops_walk_check :
    mainRun false (fun _ => (0, false)) (fun _ => some (GoErr.other "451 write failed"))
      ([] ++ WalkEntry.file "a.txt" (some 5) :: [WalkEntry.file "b.txt" (some 5)]) =
      some ⟨fileEvs "a.txt" true, 1, false⟩ :=
  upload_error_stops_walk false (fun _ => (0, false))
    (fun _ => some (GoErr.other "451 write failed"))
    [] [WalkEntry.file "b.txt" (some 5)] "a.txt" 5 (GoErr.other "451 write failed") []
    rfl rfl rfl

/-! ## C8: one lookup per file, at most one upload -/

/-- Recognizer for timestamp-lookup events. -/
def isLookupEv : Ev → Bool
  | .lookup _ => true
  | _ => false

/-- Recognizer for upload-call events. -/
def isUploadEv : Ev → Bool
  | .uploadCall _ => true
  | _ => false

/-- Recognizer for regular-file walk entries. -/
def isFileEntry : WalkEntry → Bool
  | .file _ _ => true
  | _ => false

/-- A per-file event block contains exactly one lookup. -/
theorem countP_fileEvs_lookup (rel : String) (b : Bool) :
    (fileEvs rel b).countP isLookupEv = 1 := by
  cases b <;> simp [fileEvs, isLookupEv]

/-- A per-file event block contains at most one upload call. -/
theorem countP_fileEvs_upload (rel : String) (b : Bool) :
    (fileEvs rel b).countP isUploadEv ≤ 1 := by
  cases b <;> simp [fileEvs, isUploadEv]

/-- A per-file event block for a different path, or one that decided not
to upload, contributes no upload call for path `r`. -/
theorem countP_fileEvs_uploadCall (rel r : String) (b : Bool)
    (hne : rel ≠ r ∨ b = false) :
    (fileEvs rel b).countP (fun e => decide (e = Ev.uploadCall r)) = 0 := by
  cases b with
  | false => simp [fileEvs]
  | true =>
    rcases hne with hne | hne
    · simp [fileEvs, hne]
    · simp at hne

/-- **C8**: in a run whose walk completes, the driver performs exactly one
timestamp lookup per regular file and at most one upload per regular
file; and no upload call is made for a path all of whose walked files
have a present remote timestamp at least their local timestamp. -/
theorem sync_lookup_upload_counts (win : Bool) (mt : String → Int × Bool)
    (up : String → Option GoErr) :
    ∀ files evs, walkRun win mt up files = some (evs, none) →
      evs.countP isLookupEv = files.countP isFileEntry ∧
      evs.countP isUploadEv ≤ files.countP isFileEntry ∧
      ∀ r, (mt r).1 ≠ 0 →
        (∀ relRaw st, WalkEntry.file relRaw st ∈ files → toSlash win relRaw = r →
          ∀ t, st = some t → t ≤ (mt r).1) →
        evs.countP (fun e => decide (e = Ev.uploadCall r)) = 0 := by
  intro files
  induction files with
  | nil =>
    intro evs h
    simp only [walkRun, Option.some.injEq, Prod.mk.injEq] at h
    obtain ⟨rfl, -⟩ := h
    simp
  | cons a rest ih =>
    intro evs h
    cases a with
    | dir =>
      simp only [walkRun] at h
      obtain ⟨ih1, ih2, ih3⟩ := ih evs h
      refine ⟨?_, ?_, ?_⟩
      · simpa [List.countP_cons, isFileEntry] using ih1
      · simpa [List.countP_cons, isFileEntry] using ih2
      · intro r h0 hall
        exact ih3 r h0 (fun relRaw st hm => hall relRaw st (List.mem_cons_of_mem _ hm))
    | errEntry e => simp [walkRun] at h
    | file relRaw st =>
      cases st with
      | none => simp [walkRun] at h
      | some lt =>
        simp only [walkRun] at h
        by_cases hn : newer lt (mt (toSlash win relRaw)).1 = true
        · rw [if_pos hn] at h
          cases hu : up (toSlash win relRaw) with
          | some e => rw [hu] at h; simp at h
          | none =>
            rw [hu] at h
            cases hw : walkRun win mt up rest with
            | none => rw [hw] at h; simp at h
            | some p =>
              cases p with
              | mk evs' r' =>
                rw [hw] at h
                simp only [Option.some.injEq, Prod.mk.injEq] at h
                obtain ⟨rfl, rfl⟩ := h
                obtain ⟨ih1, ih2, ih3⟩ := ih evs' hw
                refine ⟨?_, ?_, ?_⟩
                · rw [List.countP_append, countP_fileEvs_lookup, ih1]
                  simp [List.countP_cons, isFileEntry]
                  omega
                · rw [List.countP_append]
                  have hb := countP_fileEvs_upload (toSlash win relRaw) true
                  have hc : (WalkEntry.file relRaw (some lt) :: rest).countP isFileEntry =
                      rest.countP isFileEntry + 1 := by
                    simp [List.countP_cons, isFileEntry]
                  rw [hc]
                  omega
                · intro r h0 hall
                  by_cases hrel : toSlash win relRaw = r
                  · exfalso
                    have hle : lt ≤ (mt r).1 :=
                      hall relRaw (some lt) (List.mem_cons_self _ _) hrel lt rfl
                    have : newer lt (mt r).1 = false := newer_false_of_le h0 hle
                    rw [hrel] at hn
                    rw [this] at hn
                    exact Bool.false_ne_true hn
                  · rw [List.countP_append,
                      countP_fileEvs_uploadCall _ _ _ (Or.inl hrel),
                      ih3 r h0 (fun rw' st' hm => hall rw' st' (List.mem_cons_of_mem _ hm))]
        · rw [if_neg hn] at h
          cases hw : walkRun win mt up rest with
          | none => rw [hw] at h; simp at h
          | some p =>
            cases p with
            | mk evs' r' =>
              rw [hw] at h
              simp only [Option.some.injEq, Prod.mk.injEq] at h
              obtain ⟨rfl, rfl⟩ := h
              obtain ⟨ih1, ih2, ih3⟩ := ih evs' hw
              refine ⟨?_, ?_, ?_⟩
              · rw [List.countP_append, countP_fileEvs_lookup, ih1]
                simp [List.countP_cons, isFileEntry]
                omega
              · rw [List.countP_append]
                have hb := countP_fileEvs_upload (toSlash win relRaw) false
                have hc : (WalkEntry.file relRaw (some lt) :: rest).countP isFileEntry =
                    rest.countP isFileEntry + 1 := by
                  simp [List.countP_cons, isFileEntry]
                rw [hc]
                omega
              · intro r h0 hall
                rw [List.countP_append,
                  countP_fileEvs_uploadCall _ _ _ (Or.inr rfl),
                  ih3 r h0 (fun rw' st' hm => hall rw' st' (List.mem_cons_of_mem _ hm))]

/-- Witness for C8: a two-file walk — `a.txt` stale (remote Absent),
`b.txt` up to date (remote 9 ≥ local 5) — performs two lookups, one
upload, and no upload of `b.txt`. -/
theorem sync_lookup_upload_counts_check :
    (fileEvs "a.txt" true ++ fileEvs "b.txt" false).countP isLookupEv = 2 ∧
    (fileEvs "a.txt" true ++ fileEvs "b.txt" false).countP isUploadEv ≤ 2 ∧
    (fileEvs "a.txt" true ++ fileEvs "b.txt" false).countP
      (fun e => decide (e = Ev.uploadCall "b.txt")) = 0 := by
  have h := sync_lookup_upload_counts false
    (fun r => (if r = "b.txt" then (9 : Int) else 0, false)) (fun _ => none)
    [.file "a.txt" (some 5), .file "b.txt" (some 5)]
    (fileEvs "a.txt" true ++ fileEvs "b.txt" false) (by decide)
  refine ⟨h.1, h.2.1, h.2.2 "b.txt" (by decide) ?_⟩
  intro relRaw st hm hrel t hst
  rcases List.mem_cons.1 hm with he | hm'
  · exfalso
    cases he
    simp [toSlash] at hrel
  · rcases List.mem_cons.1 hm' with he | hm''
    · cases he
      cases hst
      decide
    · simp at hm''

/-! ## C9: progress and completion lines -/

/-- Recognizer for a progress line `"↑ <rel>"` printed to stdout. -/
def isProgressEv : Ev → Bool
  | .stdout l => l.data.take 2 == ['↑', ' ']
  | _ => false

/-- Every upload call is immediately preceded by the progress line
announcing exactly its relative path. -/
def announced : List Ev → Bool
  | [] => true
  | .stdout l :: .uploadCall r :: rest => (l == "↑ " ++ r) && announced rest
  | .uploadCall _ :: _ => false
  | _ :: rest => announced rest

/-- The line printed at line 176 is a progress line. -/
theorem isProgressEv_line (r : String) :
    isProgressEv (Ev.stdout ("↑ " ++ r)) = true := by
  have hd : ("↑ " ++ r).data = '↑' :: ' ' :: r.data := by
    rw [String.data_append]
    rfl
  simp [isProgressEv, hd]

/-- Structure of the per-file event blocks: each upload call is announced
by its own progress line, and progress lines and upload calls are in
bijection. -/
theorem walkRun_announced (win : Bool) (mt : String → Int × Bool)
    (up : String → Option GoErr) :
    ∀ files evs res, walkRun win mt up files = some (evs, res) →
      announced evs = true ∧ evs.countP isProgressEv = evs.countP isUploadEv := by
  intro files
  induction files with
  | nil =>
    intro evs res h
    simp only [walkRun, Option.some.injEq, Prod.mk.injEq] at h
    obtain ⟨rfl, -⟩ := h
    simp [announced]
  | cons a rest ih =>
    intro evs res h
    cases a with
    | dir =>
      simp only [walkRun] at h
      exact ih evs res h
    | errEntry e =>
      simp only [walkRun, Option.some.injEq, Prod.mk.injEq] at h
      obtain ⟨rfl, -⟩ := h
      simp [announced]
    | file relRaw st =>
      cases st with
      | none => simp [walkRun] at h
      | some lt =>
        simp only [walkRun] at h
        by_cases hn : newer lt (mt (toSlash win relRaw)).1 = true
        · rw [if_pos hn] at h
          cases hu : up (toSlash win relRaw) with
          | some e =>
            rw [hu] at h
            simp only [Option.some.injEq, Prod.mk.injEq] at h
            obtain ⟨rfl, -⟩ := h
            constructor
            · simp [fileEvs, announced]
            · simp [fileEvs, List.countP_cons, isProgressEv_line, isProgressEv, isUploadEv]
          | none =>
            rw [hu] at h
            cases hw : walkRun win mt up rest with
            | none => rw [hw] at h; simp at h
            | some p =>
              cases p with
              | mk evs' r' =>
                rw [hw] at h
                simp only [Option.some.injEq, Prod.mk.injEq] at h
                obtain ⟨rfl, rfl⟩ := h
                obtain ⟨ih1, ih2⟩ := ih evs' r' hw
                constructor
                · simpa [fileEvs, announced] using ih1
                · rw [List.countP_append, List.countP_append]
                  have h1 : (fileEvs (toSlash win relRaw) true).countP isProgressEv = 1 := by
                    simp [fileEvs, List.countP_cons, isProgressEv_line, isProgressEv]
                  have h2 : (fileEvs (toSlash win relRaw) true).countP isUploadEv = 1 := by
                    simp [fileEvs, List.countP_cons, isUploadEv]
                  rw [h1, h2, ih2]
        · rw [if_neg hn] at h
          cases hw : walkRun win mt up rest with
          | none => rw [hw] at h; simp at h
          | some p =>
            cases p with
            | mk evs' r' =>
              rw [hw] at h
              simp only [Option.some.injEq, Prod.mk.injEq] at h
              obtain ⟨rfl, rfl⟩ := h
              obtain ⟨ih1, ih2⟩ := ih evs' r' hw
              constructor
              · simpa [fileEvs, announced] using ih1
              · rw [List.countP_append, List.countP_append]
                have h1 : (fileEvs (toSlash win relRaw) false).countP isProgressEv = 0 := by
                  simp [fileEvs, List.countP_cons, isProgressEv]
                have h2 : (fileEvs (toSlash win relRaw) false).countP isUploadEv = 0 := by
                  simp [fileEvs, List.countP_cons, isUploadEv]
                rw [h1, h2, ih2]

/-- **C9 counterexample**: the progress line the driver prints for an
uploaded file is `"↑ <relative-path>"` (line 176, `fmt.Printf("↑ %s\n",
rel)`), not a line of the form `"uploaded: <relative-path>"`: in a
concrete run uploading `a.txt` the only lines printed are `"↑ a.txt"`
and the completion line, and `"↑ a.txt" ≠ "uploaded: a.txt"`. -/
theorem progress_line_format_cex :
    mainRun false (fun _ => (0, false)) (fun _ => none) [.file "a.txt" (some 5)] =
      some ⟨[.lookup "a.txt", .stdout "↑ a.txt", .uploadCall "a.txt",
             .stdout doneLine], 0, true⟩ ∧
    ("↑ a.txt" : String) ≠ "uploaded: a.txt" := by
  exact ⟨by decide, by decide⟩

/-- **C9 amended**: for every file the comparator judges newer the driver
prints exactly one progress line — of the form `"↑ <relative-path>"` —
immediately before attempting the transfer (progress lines and upload
calls are in bijection, each upload call directly preceded by its own
line), and every run that exits successfully ends its output with the
completion line. -/
theorem progress_precedes_upload (win : Bool) (mt : String → Int × Bool)
    (up : String → Option GoErr) (files : List WalkEntry) :
    (∀ evs res, walkRun win mt up files = some (evs, res) →
      announced evs = true ∧ evs.countP isProgressEv = evs.countP isUploadEv) ∧
    (∀ m, mainRun win mt up files = some m → m.exit = 0 →
      ∃ evs0, m.events = evs0 ++ [Ev.stdout doneLine]) := by
  constructor
  · exact walkRun_announced win mt up files
  · intro m hm hexit
    cases hwr : walkRun win mt up files with
    | none =>
      simp only [mainRun, hwr] at hm
      exact absurd hm (by simp)
    | some p =>
      cases p with
      | mk evs res =>
        cases res with
        | none =>
          simp only [mainRun, hwr, Option.some.injEq] at hm
          exact ⟨evs, by rw [← hm]⟩
        | some e =>
          simp only [mainRun, hwr] at hm
          cases he : isNotExist e with
          | true =>
            rw [he] at hm
            simp only [eq_self_iff_true, if_true, Option.some.injEq] at hm
            exact ⟨evs, by rw [← hm]⟩
          | false =>
            rw [he] at hm
            simp only [Bool.false_eq_true, if_false, Option.some.injEq] at hm
            rw [← hm] at hexit
            simp at hexit

/-- Witness for C9 at a concrete two-file run (one upload, one skip). -/
theorem progress_precedes_upload_check :
    (announced (fileEvs "a.txt" true ++ fileEvs "b.txt" false) = true ∧
      (fileEvs "a.txt" true ++ fileEvs "b.txt" false).countP isProgressEv =
        (fileEvs "a.txt" true ++ fileEvs "b.txt" false).countP isUploadEv) ∧
    ∃ evs0, (fileEvs "a.txt" true ++ fileEvs "b.txt" false) ++ [Ev.stdout doneLine] =
      evs0 ++ [Ev.stdout doneLine] :=
  ⟨(progress_precedes_upload false
      (fun r => (if r = "b.txt" then (9 : Int) else 0, false)) (fun _ => none)
      [.file "a.txt" (some 5), .file "b.txt" (some 5)]).1
      (fileEvs "a.txt" true ++ fileEvs "b.txt" false) none (by decide),
   ⟨fileEvs "a.txt" true ++ fileEvs "b.txt" false, rfl⟩⟩

/-! ## C10: the discarded local-stat error -/

/-- **C10**: the per-file decision step is total exactly under the
precondition that every visited file's local stat succeeded: a run over
entries whose stats all succeed never panics, while a walk reaching a
file whose stat failed dereferences the absent file-info — the run
panics (`none`) instead of taking an error branch. -/
theorem stat_failure_totality :
    (∀ win mt up files,
      (∀ relRaw st, WalkEntry.file relRaw st ∈ files → st ≠ none) →
      (walkRun win mt up files).isSome = true) ∧
    (∀ win mt up pre rest relRaw evs,
      walkRun win mt up pre = some (evs, none) →
      walkRun win mt up (pre ++ WalkEntry.file relRaw none :: rest) = none) := by
  constructor
  · intro win mt up files
    induction files with
    | nil => intro _; rfl
    | cons a rest ih =>
      intro hall
      cases a with
      | dir =>
        simp only [walkRun]
        exact ih (fun relRaw st hm => hall relRaw st (List.mem_cons_of_mem _ hm))
      | errEntry e => simp [walkRun]
      | file relRaw st =>
        cases st with
        | none => exact absurd rfl (hall relRaw none (List.mem_cons_self _ _))
        | some lt =>
          have hrest := ih (fun rw' st' hm => hall rw' st' (List.mem_cons_of_mem _ hm))
          simp only [walkRun]
          by_cases hn : newer lt (mt (toSlash win relRaw)).1 = true
          · rw [if_pos hn]
            cases hu : up (toSlash win relRaw) with
            | some e => rfl
            | none =>
              cases hw : walkRun win mt up rest with
              | none => rw [hw] at hrest; simp at hrest
              | some p => cases p with | mk evs r => simp [hw]
          · rw [if_neg hn]
            cases hw : walkRun win mt up rest with
            | none => rw [hw] at hrest; simp at hrest
            | some p => cases p with | mk evs r => simp [hw]
  · intro win mt up pre rest relRaw evs hpre
    rw [walkRun_append, hpre]
    simp [walkRun]

/-- Witness for C10: an all-stats-succeed run does not panic, and the same
run with a vanished (stat-failed) file appended panics. -/
theorem stat_failure_totality_check :
    (walkRun false (fun _ => (0, false)) (fun _ => none)
      [.file "a.txt" (some 5)]).isSome = true ∧
    walkRun false (fun _ => (0, false)) (fun _ => none)
      ([] ++ WalkEntry.file "gone.txt" none :: [.file "b.txt" (some 5)]) = none :=
  ⟨stat_failure_totality.1 false (fun _ => (0, false)) (fun _ => none)
      [.file "a.txt" (some 5)]
      (by intro relRaw st hm; rcases List.mem_cons.1 hm with he | hm'
          · cases he; simp
          · simp at hm'),
   stat_failure_totality.2 false (fun _ => (0, false)) (fun _ => none)
      [] [.file "b.txt" (some 5)] "gone.txt" [] rfl⟩

/-! ## C1: session release -/

/-- **C1** fails on the code: `main` registers `defer closeFn()` (line
164), but a fatal upload or walk error goes through `log.Fatal`, which
calls `os.Exit(1)` — deferred functions do not run, so the established
session is never released on that path.  At the concrete failing input
(one stale file whose upload fails with a non-not-exist I/O error) the
run exits 1 with `closed = false`; on the success path the deferred
close runs (exactly once). -/
theorem session_close_skipped_on_fatal :
    (mainRun false (fun _ => (0, false)) (fun _ => some (GoErr.other "io error"))
      [.file "a.txt" (some 5)]).map (fun m => (m.exit, m.closed)) =
      some (1, false) ∧
    (mainRun false (fun _ => (0, false)) (fun _ => none)
      [.file "a.txt" (some 5)]).map (fun m => (m.exit, m.closed)) =
      some (0, true) := by
  exact ⟨by decide, by decide⟩
